import Mathlib

/-!
Verification development for the crimm incremental structure builder
(ChmStructureBuilder.py) and the Bond topology element (TopoElements.py).

The builder's hierarchy (structure - model - chain - residue - atom) is
embedded as a tree of insertion-ordered association lists, mirroring the
Python dict-plus-list child collections of the node classes.  The builder
handlers (init_chain, init_residue, process_duplicate_res,
process_duplicate_het, process_disordered_res, init_atom,
reset_disordered_res, finish_chain_construction) are translated statement
by statement from the sources.  Container operations that live in modules
not among the sources (the PeptideChain chain class and the upstream
node-wrapper classes) are modelled from the specification; their doc
comments start with `Modelled from the spec:`.

Construction exceptions (which the driving parser catches per record so
that the stream continues) are returned as `Option ConsErr` next to the
updated state; conditions that would crash the whole run (attribute or
key errors on misuse) are `Except.error`.
-/

namespace Crimm

/-- Association-list lookup keyed by decidable equality; models Python dict
lookup over the insertion-ordered child collections of the hierarchy. -/
def alookup {κ α : Type} [DecidableEq κ] : List (κ × α) → κ → Option α
  | [], _ => none
  | (k0, v) :: rest, k => if k0 = k then some v else alookup rest k

/-- Python dict assignment: replace in place when the key is present
(keeping its position), append otherwise. -/
def aset {κ α : Type} [DecidableEq κ] : List (κ × α) → κ → α → List (κ × α)
  | [], k, v => [(k, v)]
  | (k0, v0) :: rest, k, v =>
      if k0 = k then (k, v) :: rest else (k0, v0) :: aset rest k v

/-- Removal of every binding of a key; models `Entity.detach_child`. -/
def adetach {κ α : Type} [DecidableEq κ] : List (κ × α) → κ → List (κ × α)
  | [], _ => []
  | (k0, v0) :: rest, k =>
      if k0 = k then adetach rest k else (k0, v0) :: adetach rest k

/-- Residue identity key: (hetero-flag, sequence number, insertion code). -/
abbrev ResId := String × Int × String

/-- Atom Node leaf record (the fields the admission logic reads; the pure
payload fields such as coordinates and B factor are not consulted by any
decision in the builder). -/
structure Atom where
  name : String
  fullname : String
  altloc : String
  occupancy : Int
  serial_number : Nat
deriving DecidableEq

/-- Modelled from the spec: a Disordered Atom Group is a named slot holding
more than one Atom Node keyed by alternate-location tag, exposing one
currently selected child; the wrapper class itself lives in the upstream
library, which is not among the sources.  `last_occupancy` starts at minus
infinity (here `none`); the child with the greatest occupancy seen so far
is the selected one. -/
structure DisorderedAtom where
  id : String
  children : List (String × Atom)
  selected : Option String
  last_occupancy : Option Int
deriving DecidableEq

/-- A slot of a residue's atom collection: a plain atom or a group. -/
inductive AtomChild where
  | plain (a : Atom)
  | group (g : DisorderedAtom)
deriving DecidableEq

/-- Residue Node: composite identity, residue name, segment id, and the
insertion-ordered atom collection keyed by atom name. -/
structure Residue where
  id : ResId
  resname : String
  segid : String
  atoms : List (String × AtomChild)
  disordered_flag : Bool
deriving DecidableEq

/-- Modelled from the spec: a Disordered Residue Group is a named slot
(keyed by the composite identity) holding more than one Residue Node keyed
by residue name, exposing one currently selected child; the wrapper class
lives in the upstream library, which is not among the sources. -/
structure DisorderedResidue where
  id : ResId
  children : List (String × Residue)
  selected : Option String
deriving DecidableEq

/-- A slot of a chain's residue collection. -/
inductive ResChild where
  | plain (r : Residue)
  | group (g : DisorderedResidue)
deriving DecidableEq

/-- Chain Node: insertion-ordered residue collection keyed by residue id. -/
structure Chain where
  id : String
  residues : List (ResId × ResChild)
deriving DecidableEq

/-- Modelled from the spec: adding a child to a Disordered Atom Group keys
it by its alternate-location tag; the child with the highest occupancy seen
so far becomes the selected one (strictly greater updates the record). -/
def disordered_add_atom (g : DisorderedAtom) (a : Atom) : DisorderedAtom :=
  let children := aset g.children a.altloc a
  match g.last_occupancy with
  | none =>
      { g with children := children, selected := some a.altloc,
               last_occupancy := some a.occupancy }
  | some l =>
      if l < a.occupancy then
        { g with children := children, selected := some a.altloc,
                 last_occupancy := some a.occupancy }
      else { g with children := children }

/-- Modelled from the spec: adding a child to a Disordered Residue Group
keys it by its residue name and selects the newly added child. -/
def disordered_add_res (g : DisorderedResidue) (r : Residue) : DisorderedResidue :=
  { g with children := aset g.children r.resname r, selected := some r.resname }

/-- Stored identity of a residue slot (`duplicate_residue.id` in the
source: a plain node's own id, or the group's recorded id). -/
def rcId : ResChild → ResId
  | .plain r => r.id
  | .group g => g.id

/-- Effective residue of a slot: the node itself, or the selected child of
a group (the wrapper delegates reads to its selected child). -/
def rcActive : ResChild → Option Residue
  | .plain r => some r
  | .group g => do
      let s ← g.selected
      alookup g.children s

/-- Write an updated effective residue back into its slot (in-place
mutation of the selected child through the wrapper). -/
def rcUpdateActive : ResChild → Residue → ResChild
  | .plain _, r => .plain r
  | .group g, r =>
      match g.selected with
      | none => .group g
      | some s => .group { g with children := aset g.children s r }

/-- Full (space-padded) spelling of the atom stored under a key; for a
group the wrapper delegates to the selected child. -/
def acGetFullname : AtomChild → Option String
  | .plain a => some a.fullname
  | .group g => do
      let s ← g.selected
      let a ← alookup g.children s
      pure a.fullname

/-- Alternate-location tags of every atom under the residue, unpacking
each Disordered Atom Group into all of its children. -/
def unpacked_altlocs (r : Residue) : List String :=
  r.atoms.foldr (fun p acc =>
    match p.2 with
    | .plain a => a.altloc :: acc
    | .group g => g.children.map (fun q => q.2.altloc) ++ acc) []

/-- Modelled from the spec: the fully-disordered precondition — "every Atom
Node currently under `duplicate_residue` must have a non-blank
alternate-location tag"; the checking helper lives in the upstream base
builder class, which is not among the sources. -/
def is_completely_disordered (r : Residue) : Bool :=
  (unpacked_altlocs r).all (fun al => decide (al ≠ " "))

/-- Modelled from the spec: the chain "supports lookup of heteroatom
residues by bare sequence number (ignoring hetero-flag/insertion code)";
the method lives in the PeptideChain module, which is not among the
sources.  Returns the keys of residues whose hetero-flag is non-blank and
whose sequence number matches. -/
def find_het_by_seq (c : Chain) (resseq : Int) : List ResId :=
  (c.residues.map Prod.fst).filter
    (fun k => decide (k.1 ≠ " ") && decide (k.2.1 = resseq))

/-- Recoverable diagnostics, mirroring the `warnings.warn` calls of the
builder (and of the modelled wrapper operations). -/
inductive Warn where
  | discontinuous_chain (cid : String)
  | residue_redefined (id : ResId)
  | residue_same_name (id : ResId) (resname : String)
  | atom_names_differ (dup_fullname fullname : String)
  | disordered_blank_altloc
deriving DecidableEq

/-- Construction exceptions: raised in the source, caught per record by the
driving parser so that the stream continues. -/
inductive ConsErr where
  | blank_altlocs (resname : String) (id : ResId)
  | blank_altloc_in_disordered (resname : String) (resseq : Int)
  | defined_twice (key : String)
deriving DecidableEq

/-- Builder session state: the current model's chain collection, the
current-chain cursor, the active-residue cursor (chain id plus the chain
key under which the active residue lives; `none` after a fatal residue
error), the segment id, and the accumulated recoverable diagnostics. -/
structure Builder where
  chains : List (String × Chain)
  chain : Option String
  residue : Option (String × ResId)
  segid : String
  warnings : List Warn
deriving DecidableEq

/-- Builder with an empty model and no cursors. -/
def emptyBuilder : Builder := ⟨[], none, none, "", []⟩

/-- init_chain: reuse an existing chain of the same id (with a
discontinuous-chain warning) or create and add a new one. -/
def init_chain (b : Builder) (cid : String) : Builder :=
  match alookup b.chains cid with
  | some _ =>
      { b with chain := some cid,
               warnings := b.warnings ++ [.discontinuous_chain cid] }
  | none =>
      { b with chains := b.chains ++ [(cid, ⟨cid, []⟩)], chain := some cid }

/-- Hetero-field normalization at the top of init_residue: a non-blank
field equal to "H" becomes "H_" plus the residue name; everything else is
passed through. -/
def normalize_field (field resname : String) : String :=
  if field ≠ " " then
    (if field = "H" then "H_" ++ resname else field)
  else field

/-- The residue key `(field, resseq, icode)` built by init_residue. -/
def mkResId (field resname : String) (resseq : Int) (icode : String) : ResId :=
  (normalize_field field resname, resseq, icode)

/-- process_disordered_res: resolve a duplicate residue record against the
node `dup` found at chain key `dupKey`.  Follows the source case by case:
an existing group reuses or grows; a plain node with the same name is
reused with a warning; a plain node with a different name must be fully
disordered, else the residue cursor is cleared and a construction error is
raised; otherwise the plain node is detached and re-absorbed into a fresh
group together with a new residue, which becomes the selected child. -/
def process_disordered_res (b : Builder) (cid : String) (c : Chain)
    (dup : ResChild) (dupKey : ResId) (resId : ResId) (resname : String) :
    Except String (Builder × Option ConsErr) :=
  match dup with
  | .group g =>
      if (alookup g.children resname).isSome then
        let g' := { g with selected := some resname }
        .ok ({ b with
                 chains := aset b.chains cid
                   { c with residues := aset c.residues dupKey (.group g') },
                 residue := some (cid, dupKey) }, none)
      else
        let new_residue : Residue := ⟨resId, resname, b.segid, [], false⟩
        let g' := disordered_add_res g new_residue
        .ok ({ b with
                 chains := aset b.chains cid
                   { c with residues := aset c.residues dupKey (.group g') },
                 residue := some (cid, dupKey) }, none)
  | .plain dr =>
      if resname = dr.resname then
        .ok ({ b with
                 warnings := b.warnings ++ [.residue_same_name resId resname],
                 residue := some (cid, dupKey) }, none)
      else if is_completely_disordered dr = false then
        .ok ({ b with residue := none }, some (.blank_altlocs resname resId))
      else
        let new_residue : Residue := ⟨resId, resname, b.segid, [], false⟩
        let g2 := disordered_add_res (disordered_add_res ⟨dr.id, [], none⟩ dr) new_residue
        .ok ({ b with
                 chains := aset b.chains cid
                   { c with residues :=
                       adetach c.residues dr.id ++ [(dr.id, .group g2)] },
                 residue := some (cid, dr.id) }, none)

/-- process_duplicate_res: warn that the key is redefined, fetch the
existing node at the key and delegate to process_disordered_res. -/
def process_duplicate_res (b : Builder) (cid : String) (c : Chain)
    (resId : ResId) (resname : String) : Except String (Builder × Option ConsErr) :=
  match alookup c.residues resId with
  | none => .error "KeyError: duplicate residue not found"
  | some dup =>
      process_disordered_res
        { b with warnings := b.warnings ++ [.residue_redefined resId] }
        cid c dup resId resId resname

/-- process_duplicate_het: fetch the first heteroatom residue sharing the
bare sequence number and delegate to process_disordered_res. -/
def process_duplicate_het (b : Builder) (cid : String) (c : Chain)
    (resId : ResId) (resname : String) : Except String (Builder × Option ConsErr) :=
  match find_het_by_seq c resId.2.1 with
  | [] => .error "IndexError: no het residue with this sequence number"
  | hid :: _ =>
      match alookup c.residues hid with
      | none => .error "KeyError: het residue not found"
      | some dup => process_disordered_res b cid c dup hid resId resname

/-- init_residue: normalize the hetero field, build the key, and dispatch:
duplicate key, duplicate heteroatom by bare sequence number, or the fast
path adding a fresh Residue Node. -/
def init_residue (b : Builder) (resname field : String) (resseq : Int) (icode : String) :
    Except String (Builder × Option ConsErr) :=
  match b.chain with
  | none => .error "AttributeError: no current chain"
  | some cid =>
      match alookup b.chains cid with
      | none => .error "current chain not in the model"
      | some c =>
          let resId := mkResId field resname resseq icode
          if (alookup c.residues resId).isSome then
            process_duplicate_res b cid c resId resname
          else if find_het_by_seq c resseq ≠ [] then
            process_duplicate_het b cid c resId resname
          else
            let r : Residue := ⟨resId, resname, b.segid, [], false⟩
            .ok ({ b with
                     chains := aset b.chains cid
                       { c with residues := c.residues ++ [(resId, .plain r)] },
                     residue := some (cid, resId) }, none)

/-- Write an updated active residue back into its chain slot and append
the recoverable diagnostics gathered while admitting an atom. -/
def writeback (b : Builder) (cid : String) (c : Chain) (rkey : ResId)
    (rc : ResChild) (r' : Residue) (ws : List Warn) : Builder :=
  { b with
      chains := aset b.chains cid
        { c with residues := aset c.residues rkey (rcUpdateActive rc r') },
      warnings := b.warnings ++ ws }

/-- Atom admission against the active residue `r` (reached through slot
`rc` at chain key `rkey`), after the space-collision normalization has
fixed the effective key `name'` and gathered warnings `ws`.  Follows
init_atom: a non-blank altloc grows an existing group, converts a plain
duplicate into a group (adding the new atom first, then the detached
existing one, flagging disorder and warning), or creates a fresh group;
a blank altloc is rejected through a disordered-residue wrapper, rejected
as a doubly defined atom when the key is taken, and appended otherwise. -/
def atom_admission (b : Builder) (cid : String) (rkey : ResId) (c : Chain)
    (rc : ResChild) (r : Residue) (ws : List Warn) (name' fullname altloc : String)
    (occupancy : Int) (serial : Nat) : Builder × Option ConsErr :=
  let a : Atom := ⟨name', fullname, altloc, occupancy, serial⟩
  if altloc ≠ " " then
    match alookup r.atoms name' with
    | some (.group g) =>
        (writeback b cid c rkey rc
          { r with atoms := aset r.atoms name' (.group (disordered_add_atom g a)) }
          ws, none)
    | some (.plain dupA) =>
        (writeback b cid c rkey rc
          { r with
              atoms := adetach r.atoms name' ++
                [(name', .group (disordered_add_atom
                    (disordered_add_atom ⟨name', [], none, none⟩ a) dupA))],
              disordered_flag := true }
          (ws ++ [.disordered_blank_altloc]), none)
    | none =>
        (writeback b cid c rkey rc
          { r with
              atoms := r.atoms ++
                [(name', .group (disordered_add_atom ⟨name', [], none, none⟩ a))],
              disordered_flag := true }
          ws, none)
  else
    match rc with
    | .group _ =>
        ({ b with warnings := b.warnings ++ ws },
         some (.blank_altloc_in_disordered r.resname r.id.2.1))
    | .plain _ =>
        if (alookup r.atoms name').isSome then
          ({ b with warnings := b.warnings ++ ws }, some (.defined_twice name'))
        else
          (writeback b cid c rkey rc
            { r with atoms := r.atoms ++ [(name', .plain a)] } ws, none)

/-- init_atom: a missing active residue silently drops the record; else the
active residue is looked up through the cursor, atom names colliding only
in spaces are re-keyed to the full spelling with a warning, and admission
proceeds per altloc. -/
def init_atom (b : Builder) (name fullname altloc : String)
    (occupancy : Int) (serial : Nat) : Except String (Builder × Option ConsErr) :=
  match b.residue with
  | none => .ok (b, none)
  | some (cid, rkey) =>
      match alookup b.chains cid with
      | none => .error "cursor chain not in the model"
      | some c =>
          match alookup c.residues rkey with
          | none => .error "cursor residue not in the chain"
          | some rc =>
              match rcActive rc with
              | none => .error "disordered residue without a selected child"
              | some r =>
                  match alookup r.atoms name with
                  | none =>
                      .ok (atom_admission b cid rkey c rc r [] name fullname
                             altloc occupancy serial)
                  | some ac =>
                      match acGetFullname ac with
                      | none => .error "disordered atom without a selected child"
                      | some f =>
                          if f ≠ fullname then
                            .ok (atom_admission b cid rkey c rc r
                                   [.atom_names_differ f fullname] fullname fullname
                                   altloc occupancy serial)
                          else
                            .ok (atom_admission b cid rkey c rc r [] name fullname
                                   altloc occupancy serial)

/-- reset_disordered_res: walk the group's children in insertion order and
select each child whose stored id equals the group's own id (so the last
matching child ends up selected; with no match the selection is kept). -/
def reset_disordered_res (g : DisorderedResidue) : DisorderedResidue :=
  { g with selected := (g.children.foldl
      (fun sel p => if p.2.id = g.id then some p.1 else sel) g.selected) }

/-- Per-slot action of the finishing loop: groups are reset, plain nodes
are untouched. -/
def reset_res_child : ResChild → ResChild
  | .group g => .group (reset_disordered_res g)
  | .plain r => .plain r

/-- finish_chain_construction: a no-op without a current chain; otherwise
reset every Disordered Residue Group of the current chain.  The trailing
chain refresh (`chain.update()`, in the PeptideChain module which is not
among the sources) is modelled from the spec as having no effect on the
key structure, since the spec assigns the finishing pass no other
mutation. -/
def finish_chain_construction (b : Builder) : Builder :=
  match b.chain with
  | none => b
  | some cid =>
      match alookup b.chains cid with
      | none => b
      | some c =>
          let c' : Chain :=
            { c with residues := c.residues.map (fun p => (p.1, reset_res_child p.2)) }
          { b with chains := aset b.chains cid c' }

/-- Inbound events of the record stream (the pure container events
begin_structure / begin_model / end_model / end_structure carry no
disorder logic and are elided; the single current model is the builder's
chain collection). -/
inductive Event where
  | begin_chain (cid : String)
  | begin_residue (resname field : String) (resseq : Int) (icode : String)
  | add_atom (name fullname altloc : String) (occupancy : Int) (serial : Nat)
  | end_chain
deriving DecidableEq

/-- Dispatch one event to its handler. -/
def process_event (b : Builder) : Event → Except String (Builder × Option ConsErr)
  | .begin_chain cid => .ok (init_chain b cid, none)
  | .begin_residue resname field resseq icode => init_residue b resname field resseq icode
  | .add_atom name fullname altloc occupancy serial =>
      init_atom b name fullname altloc occupancy serial
  | .end_chain => .ok (finish_chain_construction b, none)

/-- Run a stream of events; construction errors are caught by the driving
parser (which records them and continues), so only hard usage errors abort
the run. -/
def run_events (b : Builder) : List Event → Except String Builder
  | [] => .ok b
  | e :: es =>
      match process_event b e with
      | .error s => .error s
      | .ok (b', _) => run_events b' es

/-- Key values that can be passed to the bond-order dict lookup: strings,
or the Python builtin `type` (a class object, never equal to a string). -/
inductive PyKey where
  | str (s : String)
  | type_builtin
deriving DecidableEq

/-- Bond.bond_order_dict with `.get` semantics (missing key yields none). -/
def bond_order_dict : PyKey → Option Nat
  | .str "single" => some 1
  | .str "double" => some 2
  | .str "triple" => some 3
  | .str "aromatic" => some 2
  | _ => none

/-- Bond (TopoElements.py): a 2-tuple of atoms (their serial numbers here)
with type, order, param and a flip-normalized full id. -/
structure Bond where
  atom1 : Nat
  atom2 : Nat
  type : Option String
  order : Option Nat
  param : Option Nat
  full_id : Nat × Nat
deriving DecidableEq

/-- Bond.__new__: stores bond_type in `type`, but looks the order up with
the builtin `type` (there is no local named `type` in scope in the
source), and flips the id pair when the first atom id exceeds the last. -/
def mkBond (atom1 atom2 : Nat) (bond_type : Option String) (param : Option Nat) : Bond :=
  { atom1 := atom1, atom2 := atom2,
    type := bond_type,
    order := bond_order_dict PyKey.type_builtin,
    param := param,
    full_id := if atom2 < atom1 then (atom2, atom1) else (atom1, atom2) }

/-! Association-list lemmas. -/

theorem alookup_eq_none {κ α : Type} [DecidableEq κ] {l : List (κ × α)} {k : κ} :
    alookup l k = none ↔ k ∉ l.map Prod.fst := by
  induction l with
  | nil => simp [alookup]
  | cons p rest ih =>
      obtain ⟨k0, v⟩ := p
      by_cases h : k0 = k
      · subst h; simp [alookup]
      · simp [alookup, h, ih, Ne.symm h]

theorem mem_keys_of_alookup {κ α : Type} [DecidableEq κ] {l : List (κ × α)} {k : κ}
    {v : α} (h : alookup l k = some v) : k ∈ l.map Prod.fst := by
  by_contra hmem
  rw [← alookup_eq_none] at hmem
  rw [h] at hmem
  exact Option.noConfusion hmem

theorem alookup_append_left {κ α : Type} [DecidableEq κ] {l₁ : List (κ × α)}
    (l₂ : List (κ × α)) {k : κ} {v : α} (h : alookup l₁ k = some v) :
    alookup (l₁ ++ l₂) k = some v := by
  induction l₁ with
  | nil => simp [alookup] at h
  | cons p rest ih =>
      obtain ⟨k0, v0⟩ := p
      by_cases hk : k0 = k
      · subst hk
        simp [alookup] at h ⊢
        exact h
      · simp [alookup, hk] at h ⊢
        exact ih h

theorem alookup_append_right {κ α : Type} [DecidableEq κ] {l₁ : List (κ × α)}
    (l₂ : List (κ × α)) {k : κ} (h : alookup l₁ k = none) :
    alookup (l₁ ++ l₂) k = alookup l₂ k := by
  induction l₁ with
  | nil => simp
  | cons p rest ih =>
      obtain ⟨k0, v0⟩ := p
      by_cases hk : k0 = k
      · subst hk; simp [alookup] at h
      · simp [alookup, hk] at h ⊢
        exact ih h

theorem alookup_aset_self {κ α : Type} [DecidableEq κ] (l : List (κ × α)) (k : κ) (v : α) :
    alookup (aset l k v) k = some v := by
  induction l with
  | nil => simp [aset, alookup]
  | cons p rest ih =>
      obtain ⟨k0, v0⟩ := p
      by_cases hk : k0 = k
      · simp [aset, hk, alookup]
      · simp [aset, hk, alookup, ih]

theorem alookup_aset_ne {κ α : Type} [DecidableEq κ] {k k' : κ} (h : k' ≠ k)
    (l : List (κ × α)) (v : α) : alookup (aset l k v) k' = alookup l k' := by
  induction l with
  | nil => simp [aset, alookup, h, Ne.symm h]
  | cons p rest ih =>
      obtain ⟨k0, v0⟩ := p
      by_cases hk : k0 = k
      · subst hk
        simp [aset, alookup, h, Ne.symm h]
      · simp [aset, hk, alookup, ih]

theorem aset_eq_append {κ α : Type} [DecidableEq κ] {l : List (κ × α)} {k : κ}
    (h : k ∉ l.map Prod.fst) (v : α) : aset l k v = l ++ [(k, v)] := by
  induction l with
  | nil => simp [aset]
  | cons p rest ih =>
      obtain ⟨k0, v0⟩ := p
      simp only [List.map_cons, List.mem_cons] at h
      push_neg at h
      simp [aset, Ne.symm h.1, ih h.2]

theorem keys_aset_of_mem {κ α : Type} [DecidableEq κ] {l : List (κ × α)} {k : κ}
    (h : k ∈ l.map Prod.fst) (v : α) : (aset l k v).map Prod.fst = l.map Prod.fst := by
  induction l with
  | nil => simp at h
  | cons p rest ih =>
      obtain ⟨k0, v0⟩ := p
      by_cases hk : k0 = k
      · subst hk; simp [aset]
      · simp only [List.map_cons, List.mem_cons] at h
        rcases h with h | h
        · exact absurd h.symm hk
        · simp [aset, hk, ih h]

theorem mem_keys_aset {κ α : Type} [DecidableEq κ] {l : List (κ × α)} {k a : κ} {v : α}
    (h : a ∈ (aset l k v).map Prod.fst) : a ∈ l.map Prod.fst ∨ a = k := by
  by_cases hmem : k ∈ l.map Prod.fst
  · rw [keys_aset_of_mem hmem] at h
    exact Or.inl h
  · rw [aset_eq_append hmem, List.map_append] at h
    rcases List.mem_append.mp h with h | h
    · exact Or.inl h
    · simp at h
      exact Or.inr h

theorem nodup_keys_aset {κ α : Type} [DecidableEq κ] {l : List (κ × α)}
    (h : (l.map Prod.fst).Nodup) (k : κ) (v : α) :
    ((aset l k v).map Prod.fst).Nodup := by
  by_cases hk : k ∈ l.map Prod.fst
  · rw [keys_aset_of_mem hk]; exact h
  · rw [aset_eq_append hk, List.map_append]
    exact List.Nodup.append h (List.nodup_singleton _)
      (List.disjoint_singleton.mpr hk)

theorem not_mem_keys_adetach {κ α : Type} [DecidableEq κ] (l : List (κ × α)) (k : κ) :
    k ∉ (adetach l k).map Prod.fst := by
  induction l with
  | nil => simp [adetach]
  | cons p rest ih =>
      obtain ⟨k0, v0⟩ := p
      by_cases hk : k0 = k
      · simp [adetach, hk, ih]
      · simp [adetach, hk, ih, Ne.symm hk]

theorem mem_keys_adetach {κ α : Type} [DecidableEq κ] {l : List (κ × α)} {k a : κ}
    (h : a ∈ (adetach l k).map Prod.fst) : a ∈ l.map Prod.fst := by
  induction l with
  | nil => simp [adetach] at h
  | cons p rest ih =>
      obtain ⟨k0, v0⟩ := p
      by_cases hk : k0 = k
      · simp only [adetach, if_pos hk] at h
        simp only [List.map_cons, List.mem_cons]
        exact Or.inr (ih h)
      · simp only [adetach, if_neg hk, List.map_cons, List.mem_cons] at h
        simp only [List.map_cons, List.mem_cons]
        rcases h with h | h
        · exact Or.inl h
        · exact Or.inr (ih h)

theorem nodup_keys_adetach {κ α : Type} [DecidableEq κ] {l : List (κ × α)}
    (h : (l.map Prod.fst).Nodup) (k : κ) : ((adetach l k).map Prod.fst).Nodup := by
  induction l with
  | nil => simp [adetach]
  | cons p rest ih =>
      obtain ⟨k0, v0⟩ := p
      simp only [List.map_cons, List.nodup_cons] at h
      by_cases hk : k0 = k
      · simp [adetach, hk, ih h.2]
      · simp only [adetach, if_neg hk, List.map_cons, List.nodup_cons]
        exact ⟨fun hmem => h.1 (mem_keys_adetach hmem), ih h.2⟩

theorem alookup_map_snd {κ α β : Type} [DecidableEq κ] (t : α → β)
    (l : List (κ × α)) (k : κ) :
    alookup (l.map (fun p => (p.1, t p.2))) k = (alookup l k).map t := by
  induction l with
  | nil => simp [alookup]
  | cons p rest ih =>
      obtain ⟨k0, v0⟩ := p
      by_cases hk : k0 = k
      · simp [alookup, hk]
      · simp [alookup, hk, ih]

theorem keys_map_snd {κ α β : Type} (t : α → β) (l : List (κ × α)) :
    (l.map (fun p => (p.1, t p.2))).map Prod.fst = l.map Prod.fst := by
  induction l with
  | nil => simp
  | cons p rest ih => simp [ih]

/-! Uniqueness-invariant machinery: every event handler keeps the residue
keys of every chain of the model pairwise distinct. -/

/-- Every chain reachable in the model has pairwise distinct residue keys. -/
def KeysOk (chains : List (String × Chain)) : Prop :=
  ∀ cid c, alookup chains cid = some c → (c.residues.map Prod.fst).Nodup

theorem keysOk_aset {chains : List (String × Chain)} (h : KeysOk chains)
    {c' : Chain} (hc : (c'.residues.map Prod.fst).Nodup) (cid : String) :
    KeysOk (aset chains cid c') := by
  intro cid' c'' h''
  by_cases hcid : cid' = cid
  · subst hcid
    rw [alookup_aset_self] at h''
    injection h'' with he
    exact he ▸ hc
  · rw [alookup_aset_ne hcid] at h''
    exact h cid' c'' h''

theorem nodup_keys_detach_append {κ α : Type} [DecidableEq κ] {l : List (κ × α)}
    (h : (l.map Prod.fst).Nodup) (k : κ) (v : α) :
    ((adetach l k ++ [(k, v)]).map Prod.fst).Nodup := by
  simp only [List.map_append, List.map_cons, List.map_nil]
  exact List.Nodup.append (nodup_keys_adetach h k) (List.nodup_singleton _)
    (List.disjoint_singleton.mpr (not_mem_keys_adetach l k))

theorem nodup_keys_append_new {κ α : Type} [DecidableEq κ] {l : List (κ × α)} {k : κ}
    (h : (l.map Prod.fst).Nodup) (hnew : alookup l k = none) (v : α) :
    ((l ++ [(k, v)]).map Prod.fst).Nodup := by
  simp only [List.map_append, List.map_cons, List.map_nil]
  exact List.Nodup.append h (List.nodup_singleton _)
    (List.disjoint_singleton.mpr (alookup_eq_none.mp hnew))

theorem writeback_keysOk {b : Builder} {cid : String} {c : Chain} {rkey : ResId}
    {rc : ResChild} {r' : Residue} {ws : List Warn}
    (hk : KeysOk b.chains) (hc : (c.residues.map Prod.fst).Nodup) :
    KeysOk (writeback b cid c rkey rc r' ws).chains :=
  keysOk_aset hk (nodup_keys_aset hc _ _) cid

theorem process_disordered_res_keysOk {b : Builder} {cid : String} {c : Chain}
    {dup : ResChild} {dupKey resId : ResId} {resname : String}
    {b' : Builder} {oe : Option ConsErr}
    (h : process_disordered_res b cid c dup dupKey resId resname = .ok (b', oe))
    (hk : KeysOk b.chains) (hc : (c.residues.map Prod.fst).Nodup) :
    KeysOk b'.chains := by
  cases dup with
  | group g =>
      by_cases hsel : (alookup g.children resname).isSome = true
      · simp only [process_disordered_res, if_pos hsel, Except.ok.injEq,
          Prod.mk.injEq] at h
        obtain ⟨hb, _⟩ := h
        rw [← hb]
        exact keysOk_aset hk (nodup_keys_aset hc _ _) cid
      · simp only [process_disordered_res, if_neg hsel, Except.ok.injEq,
          Prod.mk.injEq] at h
        obtain ⟨hb, _⟩ := h
        rw [← hb]
        exact keysOk_aset hk (nodup_keys_aset hc _ _) cid
  | plain dr =>
      by_cases hname : resname = dr.resname
      · simp only [process_disordered_res, if_pos hname, Except.ok.injEq,
          Prod.mk.injEq] at h
        obtain ⟨hb, _⟩ := h
        rw [← hb]
        exact hk
      · by_cases hdis : is_completely_disordered dr = false
        · simp only [process_disordered_res, if_neg hname, if_pos hdis,
            Except.ok.injEq, Prod.mk.injEq] at h
          obtain ⟨hb, _⟩ := h
          rw [← hb]
          exact hk
        · simp only [process_disordered_res, if_neg hname, if_neg hdis,
            Except.ok.injEq, Prod.mk.injEq] at h
          obtain ⟨hb, _⟩ := h
          rw [← hb]
          exact keysOk_aset hk (nodup_keys_detach_append hc _ _) cid

theorem process_duplicate_res_keysOk {b : Builder} {cid : String} {c : Chain}
    {resId : ResId} {resname : String} {b' : Builder} {oe : Option ConsErr}
    (h : process_duplicate_res b cid c resId resname = .ok (b', oe))
    (hk : KeysOk b.chains) (hc : (c.residues.map Prod.fst).Nodup) :
    KeysOk b'.chains := by
  cases hdup : alookup c.residues resId with
  | none =>
      simp only [process_duplicate_res, hdup] at h
      exact Except.noConfusion h
  | some dup =>
      simp only [process_duplicate_res, hdup] at h
      exact process_disordered_res_keysOk h hk hc

theorem process_duplicate_het_keysOk {b : Builder} {cid : String} {c : Chain}
    {resId : ResId} {resname : String} {b' : Builder} {oe : Option ConsErr}
    (h : process_duplicate_het b cid c resId resname = .ok (b', oe))
    (hk : KeysOk b.chains) (hc : (c.residues.map Prod.fst).Nodup) :
    KeysOk b'.chains := by
  cases hhet : find_het_by_seq c resId.2.1 with
  | nil =>
      simp only [process_duplicate_het, hhet] at h
      exact Except.noConfusion h
  | cons hid rest =>
      simp only [process_duplicate_het, hhet] at h
      cases hdup : alookup c.residues hid with
      | none =>
          rw [hdup] at h
          exact Except.noConfusion h
      | some dup =>
          rw [hdup] at h
          exact process_disordered_res_keysOk h hk hc

theorem init_residue_keysOk {b : Builder} {resname field : String} {resseq : Int}
    {icode : String} {b' : Builder} {oe : Option ConsErr}
    (h : init_residue b resname field resseq icode = .ok (b', oe))
    (hk : KeysOk b.chains) : KeysOk b'.chains := by
  cases hch : b.chain with
  | none =>
      simp only [init_residue, hch] at h
      exact Except.noConfusion h
  | some cid =>
      cases hc : alookup b.chains cid with
      | none =>
          simp only [init_residue, hch, hc] at h
          exact Except.noConfusion h
      | some c =>
          have hcn : (c.residues.map Prod.fst).Nodup := hk cid c hc
          simp only [init_residue, hch, hc] at h
          by_cases hdup : (alookup c.residues (mkResId field resname resseq icode)).isSome = true
          · rw [if_pos hdup] at h
            exact process_duplicate_res_keysOk h hk hcn
          · rw [if_neg hdup] at h
            by_cases hhet : find_het_by_seq c resseq ≠ []
            · rw [if_pos hhet] at h
              exact process_duplicate_het_keysOk h hk hcn
            · rw [if_neg hhet] at h
              simp only [Except.ok.injEq, Prod.mk.injEq] at h
              obtain ⟨hb, _⟩ := h
              rw [← hb]
              refine keysOk_aset hk ?_ cid
              exact nodup_keys_append_new hcn
                (Option.not_isSome_iff_eq_none.mp hdup) _

theorem atom_admission_keysOk {b : Builder} {cid : String} {rkey : ResId} {c : Chain}
    {rc : ResChild} {r : Residue} {ws : List Warn} {name' fullname altloc : String}
    {occupancy : Int} {serial : Nat} {b' : Builder} {oe : Option ConsErr}
    (h : atom_admission b cid rkey c rc r ws name' fullname altloc occupancy serial
        = (b', oe))
    (hk : KeysOk b.chains) (hc : (c.residues.map Prod.fst).Nodup) :
    KeysOk b'.chains := by
  have hb : (atom_admission b cid rkey c rc r ws name' fullname altloc
      occupancy serial).1 = b' := by rw [h]
  rw [← hb]
  simp only [atom_admission]
  by_cases hal : altloc ≠ " "
  · rw [if_pos hal]
    cases hdup : alookup r.atoms name' with
    | some ac =>
        cases ac with
        | group g => exact writeback_keysOk hk hc
        | plain dupA => exact writeback_keysOk hk hc
    | none => exact writeback_keysOk hk hc
  · rw [if_neg hal]
    cases rc with
    | group g => exact hk
    | plain r0 =>
        by_cases htaken : (alookup r.atoms name').isSome = true
        · rw [if_pos htaken]; exact hk
        · rw [if_neg htaken]; exact writeback_keysOk hk hc

theorem init_atom_keysOk {b : Builder} {name fullname altloc : String}
    {occupancy : Int} {serial : Nat} {b' : Builder} {oe : Option ConsErr}
    (h : init_atom b name fullname altloc occupancy serial = .ok (b', oe))
    (hk : KeysOk b.chains) : KeysOk b'.chains := by
  cases hres : b.residue with
  | none =>
      simp only [init_atom, hres, Except.ok.injEq, Prod.mk.injEq] at h
      obtain ⟨hb, _⟩ := h
      rw [← hb]
      exact hk
  | some cr =>
      obtain ⟨cid, rkey⟩ := cr
      cases hc : alookup b.chains cid with
      | none =>
          simp only [init_atom, hres, hc] at h
          exact Except.noConfusion h
      | some c =>
          have hcn := hk cid c hc
          cases hrc : alookup c.residues rkey with
          | none =>
              simp only [init_atom, hres, hc, hrc] at h
              exact Except.noConfusion h
          | some rc =>
              cases hact : rcActive rc with
              | none =>
                  simp only [init_atom, hres, hc, hrc, hact] at h
                  exact Except.noConfusion h
              | some r =>
                  cases hdup : alookup r.atoms name with
                  | none =>
                      simp only [init_atom, hres, hc, hrc, hact, hdup] at h
                      injection h with h1
                      exact atom_admission_keysOk h1 hk hcn
                  | some ac =>
                      cases hfn : acGetFullname ac with
                      | none =>
                          simp only [init_atom, hres, hc, hrc, hact, hdup, hfn] at h
                          exact Except.noConfusion h
                      | some f =>
                          by_cases hne : f ≠ fullname
                          · simp only [init_atom, hres, hc, hrc, hact, hdup, hfn,
                              if_pos hne] at h
                            injection h with h1
                            exact atom_admission_keysOk h1 hk hcn
                          · simp only [init_atom, hres, hc, hrc, hact, hdup, hfn,
                              if_neg hne] at h
                            injection h with h1
                            exact atom_admission_keysOk h1 hk hcn

theorem init_chain_keysOk {b : Builder} {cid : String} (hk : KeysOk b.chains) :
    KeysOk (init_chain b cid).chains := by
  unfold init_chain
  cases hc : alookup b.chains cid with
  | some c => exact hk
  | none =>
      intro cid' c' h'
      by_cases hcid : cid' = cid
      · subst hcid
        rw [alookup_append_right _ hc] at h'
        have h2 : (⟨cid', []⟩ : Chain) = c' := by
          simpa [alookup] using h'
        rw [← h2]
        simp
      · cases hb' : alookup b.chains cid' with
        | some c'' =>
            rw [alookup_append_left _ hb'] at h'
            injection h' with he
            exact he ▸ hk cid' c'' hb'
        | none =>
            rw [alookup_append_right _ hb'] at h'
            simp only [alookup,
              if_neg (show ¬cid = cid' from fun hh => hcid hh.symm)] at h'
            exact Option.noConfusion h'

theorem finish_chain_keysOk {b : Builder} (hk : KeysOk b.chains) :
    KeysOk (finish_chain_construction b).chains := by
  cases hch : b.chain with
  | none => simp only [finish_chain_construction, hch]; exact hk
  | some cid =>
      cases hc : alookup b.chains cid with
      | none =>
          simp only [finish_chain_construction, hch, hc]
          exact hk
      | some c =>
          simp only [finish_chain_construction, hch, hc]
          refine keysOk_aset hk ?_ cid
          show ((c.residues.map (fun p => (p.1, reset_res_child p.2))).map Prod.fst).Nodup
          rw [keys_map_snd]
          exact hk cid c hc

theorem process_event_keysOk {b : Builder} {e : Event} {b' : Builder}
    {oe : Option ConsErr} (h : process_event b e = .ok (b', oe))
    (hk : KeysOk b.chains) : KeysOk b'.chains := by
  cases e with
  | begin_chain cid =>
      simp only [process_event, Except.ok.injEq, Prod.mk.injEq] at h
      obtain ⟨hb, _⟩ := h
      rw [← hb]
      exact init_chain_keysOk hk
  | begin_residue resname field resseq icode => exact init_residue_keysOk h hk
  | add_atom name fullname altloc occupancy serial => exact init_atom_keysOk h hk
  | end_chain =>
      simp only [process_event, Except.ok.injEq, Prod.mk.injEq] at h
      obtain ⟨hb, _⟩ := h
      rw [← hb]
      exact finish_chain_keysOk hk

theorem run_events_keysOk {es : List Event} : ∀ {b b' : Builder},
    run_events b es = .ok b' → KeysOk b.chains → KeysOk b'.chains := by
  induction es with
  | nil =>
      intro b b' h hk
      simp only [run_events, Except.ok.injEq] at h
      exact h ▸ hk
  | cons e rest ih =>
      intro b b' h hk
      cases hpe : process_event b e with
      | error s =>
          simp only [run_events, hpe] at h
          exact Except.noConfusion h
      | ok p =>
          obtain ⟨b1, oe⟩ := p
          simp only [run_events, hpe] at h
          exact ih h (process_event_keysOk hpe hk)

theorem countP_le_one_of_nodup {α : Type} [DecidableEq α] {l : List α}
    (h : l.Nodup) (a : α) : l.countP (fun x => decide (x = a)) ≤ 1 := by
  induction l with
  | nil => simp
  | cons x rest ih =>
      simp only [List.nodup_cons] at h
      by_cases hx : x = a
      · subst hx
        rw [List.countP_cons_of_pos _ _ (by simp)]
        have hz : rest.countP (fun y => decide (y = x)) = 0 := by
          rw [List.countP_eq_zero]
          intro y hy
          simp only [decide_eq_true_eq]
          intro he
          exact h.1 (he ▸ hy)
        omega
      · rw [List.countP_cons_of_neg _ _ (by simp [hx])]
        exact ih h.2

/-- C6: after every processed event stream (in particular after end_chain),
every chain of the model maps each residue key to at most one node — the
key lists of all chains are duplicate-free, so each key occurs at most
once and traversal yields at most one effective residue per key. -/
theorem c6_residue_key_uniqueness (es : List Event) (b : Builder)
    (h : run_events emptyBuilder es = .ok b) (cid : String) (c : Chain)
    (hc : alookup b.chains cid = some c) :
    (c.residues.map Prod.fst).Nodup ∧
      ∀ k : ResId, (c.residues.map Prod.fst).countP (fun k' => decide (k' = k)) ≤ 1 := by
  have hk : KeysOk b.chains := by
    refine run_events_keysOk h ?_
    intro cid' c' h'
    simp [alookup, emptyBuilder] at h'
  have hn := hk cid c hc
  exact ⟨hn, fun k => countP_le_one_of_nodup hn k⟩

/-- Witness for C6 at a concrete one-event stream. -/
theorem c6_residue_key_uniqueness_witness :
    run_events emptyBuilder [Event.begin_chain "A"] =
        .ok ⟨[("A", ⟨"A", []⟩)], some "A", none, "", []⟩ ∧
      alookup (⟨[("A", ⟨"A", []⟩)], some "A", none, "", []⟩ : Builder).chains "A" =
        some ⟨"A", []⟩ ∧
      (((⟨"A", []⟩ : Chain).residues.map Prod.fst).Nodup ∧
        ∀ k : ResId,
          ((⟨"A", []⟩ : Chain).residues.map Prod.fst).countP
            (fun k' => decide (k' = k)) ≤ 1) :=
  ⟨rfl, rfl,
    c6_residue_key_uniqueness [Event.begin_chain "A"]
      ⟨[("A", ⟨"A", []⟩)], some "A", none, "", []⟩ rfl "A" ⟨"A", []⟩ rfl⟩

/-- C9: finish_chain_construction on a builder without any initialized
chain returns normally and changes nothing: the missing-chain guard makes
the finishing pass a no-op, and the end_chain event succeeds without any
error. -/
theorem c9_finish_without_chain (b : Builder) (h : b.chain = none) :
    finish_chain_construction b = b ∧
      process_event b .end_chain = .ok (b, none) := by
  have h1 : finish_chain_construction b = b := by
    simp only [finish_chain_construction, h]
  exact ⟨h1, by simp only [process_event, h1]⟩

/-- Witness for C9 on the fresh builder. -/
theorem c9_finish_without_chain_witness :
    emptyBuilder.chain = none ∧
      (finish_chain_construction emptyBuilder = emptyBuilder ∧
        process_event emptyBuilder .end_chain = .ok (emptyBuilder, none)) :=
  ⟨rfl, c9_finish_without_chain emptyBuilder rfl⟩

/-- C10: a new Bond stores the given bond_type in its `type` field but its
`order` field is always none, even though the order table does declare
single 1, double 2, triple 3, aromatic 2 — the lookup consults the table
with the builtin `type` instead of bond_type, so the mapping is never
applied. -/
theorem c10_bond_order_never_applied (atom1 atom2 : Nat)
    (bond_type : Option String) (param : Option Nat) :
    (mkBond atom1 atom2 bond_type param).type = bond_type ∧
      (mkBond atom1 atom2 bond_type param).order = none ∧
      bond_order_dict (.str "single") = some 1 ∧
      bond_order_dict (.str "double") = some 2 ∧
      bond_order_dict (.str "triple") = some 3 ∧
      bond_order_dict (.str "aromatic") = some 2 :=
  ⟨rfl, rfl, rfl, rfl, rfl, rfl⟩

/-- C4 counterexample: the hetero-flag "X" (non-blank, not the water flag)
is passed through unchanged rather than being rewritten to "H_" plus the
residue name, refuting the claim that every non-blank non-water flag is
rewritten. -/
theorem c4_flag_normalization_counterexample :
    mkResId "X" "ALA" 1 " " = ("X", 1, " ") ∧
      mkResId "X" "ALA" 1 " " ≠ ("H_" ++ "ALA", 1, " ") := by
  exact ⟨rfl, by decide⟩

/-- C4 (amended): in begin_residue only the hetero-flag "H" is rewritten to
"H_" + residue-name before being used in the key; the blank flag, the water
flag "W", and every other flag value pass through unchanged; the key used
for duplicate detection is (normalized flag, sequence number, insertion
code). -/
theorem c4_flag_normalization (resname : String) (resseq : Int) (icode : String) :
    mkResId " " resname resseq icode = (" ", resseq, icode) ∧
      mkResId "W" resname resseq icode = ("W", resseq, icode) ∧
      mkResId "H" resname resseq icode = ("H_" ++ resname, resseq, icode) ∧
      ∀ field : String, field ≠ "H" →
        mkResId field resname resseq icode = (field, resseq, icode) := by
  refine ⟨rfl, rfl, rfl, ?_⟩
  intro field hf
  by_cases hb : field = " "
  · subst hb; rfl
  · simp [mkResId, normalize_field, hb, hf]

/-- Witness for C4 at the flag "X". -/
theorem c4_flag_normalization_witness :
    ("X" : String) ≠ "H" ∧ mkResId "X" "GLY" 2 "B" = ("X", 2, "B") :=
  ⟨by decide, (c4_flag_normalization "GLY" 2 "B").2.2.2 "X" (by decide)⟩

/-- C8: begin_chain is idempotent — when the id is already present the
existing chain becomes current, a discontinuous-chain warning is recorded
and the chain collection is unchanged; a second begin_chain with the same
id changes nothing, and the id count stays at most one. -/
theorem c8_begin_chain_idempotent (b : Builder) (cid : String) :
    (∀ c, alookup b.chains cid = some c →
        init_chain b cid =
          { b with chain := some cid,
                   warnings := b.warnings ++ [Warn.discontinuous_chain cid] }) ∧
      (init_chain (init_chain b cid) cid).chains = (init_chain b cid).chains ∧
      ((b.chains.map Prod.fst).countP (fun x => decide (x = cid)) ≤ 1 →
        ((init_chain (init_chain b cid) cid).chains.map Prod.fst).countP
          (fun x => decide (x = cid)) ≤ 1) := by
  have hchains : ∀ b' : Builder, ∀ c, alookup b'.chains cid = some c →
      (init_chain b' cid).chains = b'.chains := by
    intro b' c hc
    simp only [init_chain, hc]
  have hafter : ∃ c, alookup (init_chain b cid).chains cid = some c := by
    cases hc : alookup b.chains cid with
    | some c => exact ⟨c, by rw [hchains b c hc, hc]⟩
    | none =>
        refine ⟨⟨cid, []⟩, ?_⟩
        have h1 : (init_chain b cid).chains = b.chains ++ [(cid, ⟨cid, []⟩)] := by
          simp only [init_chain, hc]
        rw [h1, alookup_append_right _ hc]
        simp [alookup]
  obtain ⟨c1, hc1⟩ := hafter
  refine ⟨?_, hchains _ c1 hc1, ?_⟩
  · intro c hc
    simp only [init_chain, hc]
  · intro hcount
    rw [hchains _ c1 hc1]
    cases hc : alookup b.chains cid with
    | some c =>
        rw [hchains b c hc]
        exact hcount
    | none =>
        have h1 : (init_chain b cid).chains = b.chains ++ [(cid, ⟨cid, []⟩)] := by
          simp only [init_chain, hc]
        rw [h1]
        have hz : (b.chains.map Prod.fst).countP (fun x => decide (x = cid)) = 0 := by
          rw [List.countP_eq_zero]
          intro a ha
          simp only [decide_eq_true_eq]
          intro he
          exact (alookup_eq_none.mp hc) (he ▸ ha)
        rw [List.map_append, List.countP_append, hz]
        simp

/-- Witness for C8: a builder already holding chain "A". -/
theorem c8_begin_chain_idempotent_witness :
    init_chain ⟨[("A", ⟨"A", []⟩)], none, none, "", []⟩ "A" =
        { chains := [("A", ⟨"A", []⟩)], chain := some "A", residue := none,
          segid := "", warnings := [Warn.discontinuous_chain "A"] } ∧
      ((init_chain (init_chain ⟨[("A", ⟨"A", []⟩)], none, none, "", []⟩ "A")
          "A").chains.map Prod.fst).countP (fun x => decide (x = "A")) ≤ 1 :=
  ⟨(c8_begin_chain_idempotent ⟨[("A", ⟨"A", []⟩)], none, none, "", []⟩ "A").1
      ⟨"A", []⟩ rfl,
   (c8_begin_chain_idempotent ⟨[("A", ⟨"A", []⟩)], none, none, "", []⟩ "A").2.2
      (by decide)⟩

theorem init_atom_dropped {b : Builder} (h : b.residue = none)
    (name fullname altloc : String) (occupancy : Int) (serial : Nat) :
    init_atom b name fullname altloc occupancy serial = .ok (b, none) := by
  simp only [init_atom, h]

theorem run_addatoms_dropped {b : Builder} (h : b.residue = none) :
    ∀ es : List Event,
      (∀ e ∈ es, ∃ n f al oc sn, e = Event.add_atom n f al oc sn) →
      run_events b es = .ok b := by
  intro es
  induction es with
  | nil => intro _; rfl
  | cons e rest ih =>
      intro hall
      obtain ⟨n, f, al, oc, sn, he⟩ := hall e (List.mem_cons_self e rest)
      subst he
      have hstep := init_atom_dropped h n f al oc sn
      simp only [run_events, process_event, hstep]
      exact ih (fun e' he' => hall e' (List.mem_cons_of_mem _ he'))

/-- C1: a begin_residue at an occupied key whose plain node carries a
different residue name and has some blank-altloc atom reports a fatal
construction error naming the key and the new residue name; the chain
collection is unchanged (the key still resolves to the original node, no
group is created), the active-residue cursor is cleared, and every
subsequent add_atom event (until a begin_residue succeeds again) leaves
the builder untouched. -/
theorem c1_blank_altloc_duplicate_aborts
    (b : Builder) (cid : String) (c : Chain) (r : Residue)
    (resname field : String) (resseq : Int) (icode : String)
    (hcur : b.chain = some cid)
    (hc : alookup b.chains cid = some c)
    (hk : alookup c.residues (mkResId field resname resseq icode) = some (.plain r))
    (hname : resname ≠ r.resname)
    (hblank : is_completely_disordered r = false) :
    ∃ b', init_residue b resname field resseq icode =
        .ok (b', some (ConsErr.blank_altlocs resname
              (mkResId field resname resseq icode))) ∧
      b'.chains = b.chains ∧
      b'.residue = none ∧
      alookup b'.chains cid = some c ∧
      alookup c.residues (mkResId field resname resseq icode) = some (.plain r) ∧
      ∀ es : List Event,
        (∀ e ∈ es, ∃ n f al oc sn, e = Event.add_atom n f al oc sn) →
        run_events b' es = .ok b' := by
  refine ⟨{ b with
              warnings := b.warnings ++
                [.residue_redefined (mkResId field resname resseq icode)],
              residue := none }, ?_, rfl, rfl, hc, hk, ?_⟩
  · have hdup : (alookup c.residues (mkResId field resname resseq icode)).isSome
        = true := by
      rw [hk]; rfl
    simp only [init_residue, hcur, hc, if_pos hdup]
    simp only [process_duplicate_res, hk, process_disordered_res, if_neg hname,
      if_pos hblank]
    rw [hcur]
  · exact run_addatoms_dropped rfl

/-- Witness for C1: key (" ", 1, " ") holds "ALA" with one blank-altloc
atom; a begin_residue for "GLY" at the same key aborts. -/
theorem c1_blank_altloc_duplicate_aborts_witness :
    ((⟨[("A", ⟨"A", [((" ", 1, " "),
        .plain ⟨(" ", 1, " "), "ALA", "",
          [("CA", .plain ⟨"CA", " CA ", " ", 10, 1⟩)], false⟩)]⟩)],
      some "A", some ("A", (" ", 1, " ")), "", []⟩ : Builder).chain = some "A" ∧
      ("GLY" : String) ≠ "ALA" ∧
      is_completely_disordered
        ⟨(" ", 1, " "), "ALA", "",
          [("CA", .plain ⟨"CA", " CA ", " ", 10, 1⟩)], false⟩ = false) ∧
    (∃ b', init_residue
        (⟨[("A", ⟨"A", [((" ", 1, " "),
            .plain ⟨(" ", 1, " "), "ALA", "",
              [("CA", .plain ⟨"CA", " CA ", " ", 10, 1⟩)], false⟩)]⟩)],
          some "A", some ("A", (" ", 1, " ")), "", []⟩ : Builder) "GLY" " " 1 " " =
        .ok (b', some (ConsErr.blank_altlocs "GLY" (mkResId " " "GLY" 1 " "))) ∧
      b'.chains = (⟨[("A", ⟨"A", [((" ", 1, " "),
          .plain ⟨(" ", 1, " "), "ALA", "",
            [("CA", .plain ⟨"CA", " CA ", " ", 10, 1⟩)], false⟩)]⟩)],
        some "A", some ("A", (" ", 1, " ")), "", []⟩ : Builder).chains ∧
      b'.residue = none ∧
      alookup b'.chains "A" = some ⟨"A", [((" ", 1, " "),
        .plain ⟨(" ", 1, " "), "ALA", "",
          [("CA", .plain ⟨"CA", " CA ", " ", 10, 1⟩)], false⟩)]⟩ ∧
      alookup (⟨"A", [((" ", 1, " "),
          .plain ⟨(" ", 1, " "), "ALA", "",
            [("CA", .plain ⟨"CA", " CA ", " ", 10, 1⟩)], false⟩)]⟩ : Chain).residues
          (mkResId " " "GLY" 1 " ") =
        some (.plain ⟨(" ", 1, " "), "ALA", "",
          [("CA", .plain ⟨"CA", " CA ", " ", 10, 1⟩)], false⟩) ∧
      ∀ es : List Event,
        (∀ e ∈ es, ∃ n f al oc sn, e = Event.add_atom n f al oc sn) →
        run_events b' es = .ok b') :=
  ⟨⟨rfl, by decide, by decide⟩,
    c1_blank_altloc_duplicate_aborts _ "A" _ _ "GLY" " " 1 " "
      rfl rfl rfl (by decide) (by decide)⟩

theorem alookup_adetach_self {κ α : Type} [DecidableEq κ] (l : List (κ × α)) (k : κ) :
    alookup (adetach l k) k = none :=
  alookup_eq_none.mpr (not_mem_keys_adetach l k)

theorem countP_fst_adetach {κ α : Type} [DecidableEq κ] (l : List (κ × α)) (k : κ) :
    (adetach l k).countP (fun p => decide (p.1 = k)) = 0 := by
  rw [List.countP_eq_zero]
  intro p hp
  simp only [decide_eq_true_eq]
  intro he
  exact not_mem_keys_adetach l k (List.mem_map.mpr ⟨p, hp, he⟩)

/-- C2: a begin_residue at a key held by a plain, fully disordered node
with a different residue name turns the slot into exactly one Disordered
Residue Group at that key whose children are exactly the original node
(with all its atoms, keyed by the old name) and a fresh node for the new
name; the fresh node is the selected child and the group becomes the
builder's active residue. -/
theorem c2_point_mutation_group
    (b : Builder) (cid : String) (c : Chain) (r : Residue)
    (resname field : String) (resseq : Int) (icode : String)
    (hcur : b.chain = some cid)
    (hc : alookup b.chains cid = some c)
    (hk : alookup c.residues (mkResId field resname resseq icode) = some (.plain r))
    (hid : r.id = mkResId field resname resseq icode)
    (hname : resname ≠ r.resname)
    (hdis : is_completely_disordered r = true) :
    ∃ b' c', init_residue b resname field resseq icode = .ok (b', none) ∧
      alookup b'.chains cid = some c' ∧
      alookup c'.residues (mkResId field resname resseq icode) =
        some (.group ⟨r.id,
          [(r.resname, r),
           (resname, ⟨mkResId field resname resseq icode, resname, b.segid, [], false⟩)],
          some resname⟩) ∧
      c'.residues.countP
        (fun p => decide (p.1 = mkResId field resname resseq icode)) = 1 ∧
      b'.residue = some (cid, mkResId field resname resseq icode) := by
  have hdup : (alookup c.residues (mkResId field resname resseq icode)).isSome
      = true := by
    rw [hk]; rfl
  have hfd : ¬ is_completely_disordered r = false := by
    rw [hdis]; simp
  refine ⟨{ b with
              chains := aset b.chains cid
                { c with residues :=
                    adetach c.residues r.id ++
                      [(r.id, .group ⟨r.id,
                        [(r.resname, r),
                         (resname, ⟨mkResId field resname resseq icode, resname,
                            b.segid, [], false⟩)], some resname⟩)] },
              warnings := b.warnings ++
                [.residue_redefined (mkResId field resname resseq icode)],
              residue := some (cid, r.id) },
          { c with residues :=
              adetach c.residues r.id ++
                [(r.id, .group ⟨r.id,
                  [(r.resname, r),
                   (resname, ⟨mkResId field resname resseq icode, resname,
                      b.segid, [], false⟩)], some resname⟩)] },
          ?_, ?_, ?_, ?_, ?_⟩
  · simp only [init_residue, hcur, hc, if_pos hdup]
    simp only [process_duplicate_res, hk, process_disordered_res, if_neg hname,
      if_neg hfd, disordered_add_res, aset,
      if_neg (show ¬r.resname = resname from fun h => hname h.symm)]
    rw [hcur]
  · exact alookup_aset_self _ _ _
  · rw [← hid, alookup_append_right _ (alookup_adetach_self _ _)]
    simp [alookup]
  · rw [← hid, List.countP_append, countP_fst_adetach]
    simp [hid]
  · rw [hid]

/-- Witness for C2: "ALA" at (" ", 1, " ") with one altloc-"A" atom,
redefined as "SER". -/
theorem c2_point_mutation_group_witness :
    (is_completely_disordered
        ⟨(" ", 1, " "), "ALA", "",
          [("CA", .plain ⟨"CA", " CA ", "A", 10, 1⟩)], true⟩ = true ∧
      ("SER" : String) ≠ "ALA") ∧
    (∃ b' c', init_residue
        (⟨[("A", ⟨"A", [((" ", 1, " "),
            .plain ⟨(" ", 1, " "), "ALA", "",
              [("CA", .plain ⟨"CA", " CA ", "A", 10, 1⟩)], true⟩)]⟩)],
          some "A", some ("A", (" ", 1, " ")), "", []⟩ : Builder) "SER" " " 1 " " =
        .ok (b', none) ∧
      alookup b'.chains "A" = some c' ∧
      alookup c'.residues (mkResId " " "SER" 1 " ") =
        some (.group ⟨(" ", 1, " "),
          [("ALA", ⟨(" ", 1, " "), "ALA", "",
              [("CA", .plain ⟨"CA", " CA ", "A", 10, 1⟩)], true⟩),
           ("SER", ⟨mkResId " " "SER" 1 " ", "SER", "", [], false⟩)],
          some "SER"⟩) ∧
      c'.residues.countP (fun p => decide (p.1 = mkResId " " "SER" 1 " ")) = 1 ∧
      b'.residue = some ("A", mkResId " " "SER" 1 " ")) :=
  ⟨⟨by decide, by decide⟩,
    c2_point_mutation_group
      ⟨[("A", ⟨"A", [((" ", 1, " "),
          .plain ⟨(" ", 1, " "), "ALA", "",
            [("CA", .plain ⟨"CA", " CA ", "A", 10, 1⟩)], true⟩)]⟩)],
        some "A", some ("A", (" ", 1, " ")), "", []⟩ "A" _ _ "SER" " " 1 " "
      rfl rfl rfl rfl (by decide) (by decide)⟩

/-- Children (keyed by altloc, in insertion order) of the Disordered Atom
Group left under an atom key by an init_atom call, for inspecting concrete
runs. -/
def group_children_after (res : Except String (Builder × Option ConsErr))
    (cid : String) (rkey : ResId) (aname : String) :
    Option (List (String × Atom)) :=
  match res with
  | .ok (b, none) =>
      match alookup b.chains cid with
      | some c =>
          match alookup c.residues rkey with
          | some (.plain r) =>
              match alookup r.atoms aname with
              | some (.group g) => some g.children
              | _ => none
          | _ => none
      | none => none
  | _ => none

/-- C3 counterexample: converting a plain blank-altloc atom into a group
adds the NEW atom first and the pre-existing atom second — the existing
atom is not added first as the claim states. -/
theorem c3_existing_first_counterexample :
    group_children_after
        (init_atom
          (⟨[("A", ⟨"A", [((" ", 1, " "),
              .plain ⟨(" ", 1, " "), "ALA", "",
                [("CA", .plain ⟨"CA", " CA ", " ", 5, 1⟩)], false⟩)]⟩)],
            some "A", some ("A", (" ", 1, " ")), "", []⟩ : Builder)
          "CA" " CA " "B" 7 2) "A" (" ", 1, " ") "CA" =
      some [("B", ⟨"CA", " CA ", "B", 7, 2⟩), (" ", ⟨"CA", " CA ", " ", 5, 1⟩)] ∧
    some [("B", (⟨"CA", " CA ", "B", 7, 2⟩ : Atom)), (" ", ⟨"CA", " CA ", " ", 5, 1⟩)]
      ≠ some [(" ", (⟨"CA", " CA ", " ", 5, 1⟩ : Atom)), ("B", ⟨"CA", " CA ", "B", 7, 2⟩)] :=
  ⟨by decide, by decide⟩

/-- C3 (amended): in add_atom with a non-blank altloc, when the (possibly
rewritten) key currently holds a single plain Atom Node, the existing node
is detached, a Disordered Atom Group is created under the key holding both
atoms — the incoming atom added first, the pre-existing atom second — the
residue is flagged as containing disorder, and a recoverable warning is
recorded. -/
theorem c3_post_hoc_disorder
    (b : Builder) (cid : String) (rkey : ResId) (c : Chain) (r : Residue)
    (dupA : Atom) (name fullname altloc : String) (occupancy : Int) (serial : Nat)
    (hres : b.residue = some (cid, rkey))
    (hc : alookup b.chains cid = some c)
    (hrc : alookup c.residues rkey = some (.plain r))
    (hdup : alookup r.atoms name = some (.plain dupA))
    (hfn : dupA.fullname = fullname)
    (hal : altloc ≠ " ")
    (hda : dupA.altloc ≠ altloc) :
    ∃ b' c' r' g, init_atom b name fullname altloc occupancy serial = .ok (b', none) ∧
      alookup b'.chains cid = some c' ∧
      alookup c'.residues rkey = some (.plain r') ∧
      r'.atoms = adetach r.atoms name ++ [(name, .group g)] ∧
      g.children = [(altloc, ⟨name, fullname, altloc, occupancy, serial⟩),
                    (dupA.altloc, dupA)] ∧
      r'.disordered_flag = true ∧
      b'.warnings = b.warnings ++ [Warn.disordered_blank_altloc] := by
  have hnot : ¬ (dupA.fullname ≠ fullname) := fun hcon => hcon hfn
  have hne : ¬ altloc = dupA.altloc := fun h => hda h.symm
  refine ⟨{ b with
              chains := aset b.chains cid
                { c with residues := aset c.residues rkey (.plain
                    { r with
                        atoms := adetach r.atoms name ++
                          [(name, .group (disordered_add_atom (disordered_add_atom
                              ⟨name, [], none, none⟩
                              ⟨name, fullname, altloc, occupancy, serial⟩) dupA))],
                        disordered_flag := true }) },
              warnings := b.warnings ++ [.disordered_blank_altloc] },
          { c with residues := aset c.residues rkey (.plain
              { r with
                  atoms := adetach r.atoms name ++
                    [(name, .group (disordered_add_atom (disordered_add_atom
                        ⟨name, [], none, none⟩
                        ⟨name, fullname, altloc, occupancy, serial⟩) dupA))],
                  disordered_flag := true }) },
          { r with
              atoms := adetach r.atoms name ++
                [(name, .group (disordered_add_atom (disordered_add_atom
                    ⟨name, [], none, none⟩
                    ⟨name, fullname, altloc, occupancy, serial⟩) dupA))],
              disordered_flag := true },
          disordered_add_atom (disordered_add_atom ⟨name, [], none, none⟩
            ⟨name, fullname, altloc, occupancy, serial⟩) dupA,
          ?_, ?_, ?_, rfl, ?_, rfl, rfl⟩
  · simp only [init_atom, hres, hc, hrc, rcActive, hdup, acGetFullname,
      if_neg hnot, atom_admission, if_pos hal, writeback, rcUpdateActive,
      List.nil_append]
  · exact alookup_aset_self _ _ _
  · exact alookup_aset_self _ _ _
  · simp only [disordered_add_atom, aset]
    by_cases hlt : occupancy < dupA.occupancy
    · simp [if_pos hlt, if_neg hne]
    · simp [if_neg hlt, if_neg hne]

/-- Witness for C3: a plain blank-altloc "CA" atom followed by an altloc
"B" record for the same key. -/
theorem c3_post_hoc_disorder_witness :
    ((⟨"CA", " CA ", " ", 5, 1⟩ : Atom).fullname = " CA " ∧
      ("B" : String) ≠ " " ∧
      (⟨"CA", " CA ", " ", 5, 1⟩ : Atom).altloc ≠ "B") ∧
    (∃ b' c' r' g, init_atom
        (⟨[("A", ⟨"A", [((" ", 1, " "),
            .plain ⟨(" ", 1, " "), "ALA", "",
              [("CA", .plain ⟨"CA", " CA ", " ", 5, 1⟩)], false⟩)]⟩)],
          some "A", some ("A", (" ", 1, " ")), "", []⟩ : Builder)
        "CA" " CA " "B" 7 2 = .ok (b', none) ∧
      alookup b'.chains "A" = some c' ∧
      alookup c'.residues (" ", 1, " ") = some (.plain r') ∧
      r'.atoms = adetach
          (⟨(" ", 1, " "), "ALA", "",
            [("CA", .plain ⟨"CA", " CA ", " ", 5, 1⟩)], false⟩ : Residue).atoms "CA"
          ++ [("CA", .group g)] ∧
      g.children = [("B", ⟨"CA", " CA ", "B", 7, 2⟩),
                    ((⟨"CA", " CA ", " ", 5, 1⟩ : Atom).altloc,
                      ⟨"CA", " CA ", " ", 5, 1⟩)] ∧
      r'.disordered_flag = true ∧
      b'.warnings = [] ++ [Warn.disordered_blank_altloc]) :=
  ⟨⟨rfl, by decide, by decide⟩,
    c3_post_hoc_disorder
      ⟨[("A", ⟨"A", [((" ", 1, " "),
          .plain ⟨(" ", 1, " "), "ALA", "",
            [("CA", .plain ⟨"CA", " CA ", " ", 5, 1⟩)], false⟩)]⟩)],
        some "A", some ("A", (" ", 1, " ")), "", []⟩
      "A" (" ", 1, " ") _ _ _ "CA" " CA " "B" 7 2
      rfl rfl rfl rfl rfl (by decide) (by decide)⟩

theorem foldl_select_eq_reverse_find (children : List (String × Residue))
    (gid : ResId) (init : Option String) :
    children.foldl (fun sel q => if q.2.id = gid then some q.1 else sel) init =
      (match children.reverse.find? (fun q => decide (q.2.id = gid)) with
       | some q => some q.1
       | none => init) := by
  induction children using List.reverseRecOn with
  | nil => rfl
  | append_singleton l x ih =>
      rw [List.foldl_append, List.reverse_append]
      simp only [List.foldl_cons, List.foldl_nil, List.reverse_singleton,
        List.singleton_append, List.find?]
      by_cases hx : x.2.id = gid
      · simp [hx]
      · simp [hx, ih]

/-- Selected child of the Disordered Residue Group found at a chain key
after a run, for inspecting concrete streams. -/
def selected_after (res : Except String Builder) (cid : String) (k : ResId) :
    Option String :=
  match res with
  | .ok b =>
      match alookup b.chains cid with
      | some c =>
          match alookup c.residues k with
          | some (.group g) => g.selected
          | _ => none
      | none => none
  | .error _ => none

/-- C5 counterexample: a group whose selection was made explicitly during
the stream (re-occurrence of the known alternate "ALA" selects it) does
NOT keep that selection through end_chain: the finishing pass runs
unconditionally and leaves "SER" selected. -/
theorem c5_explicit_selection_overridden :
    selected_after (run_events emptyBuilder
        [.begin_chain "A", .begin_residue "ALA" " " 1 " ",
         .add_atom "CA" " CA " "A" 10 1, .begin_residue "SER" " " 1 " ",
         .add_atom "CA" " CA " "A" 10 2, .begin_residue "ALA" " " 1 " "])
        "A" (" ", 1, " ") = some "ALA" ∧
      selected_after (run_events emptyBuilder
        [.begin_chain "A", .begin_residue "ALA" " " 1 " ",
         .add_atom "CA" " CA " "A" 10 1, .begin_residue "SER" " " 1 " ",
         .add_atom "CA" " CA " "A" 10 2, .begin_residue "ALA" " " 1 " ",
         .end_chain])
        "A" (" ", 1, " ") = some "SER" ∧
      (some "SER" : Option String) ≠ some "ALA" :=
  ⟨by decide, by decide, by decide⟩

/-- C5 (amended): end_chain applies the default-selection pass to every
Disordered Residue Group of the current chain unconditionally — the
selection made during the stream is recomputed, not preserved: afterwards
the selected child of each group is the last child (in insertion order)
whose stored id equals the group's own id; the prior selection survives
only when no child matches; the outcome is a deterministic function of the
children and independent of any explicit selection made earlier. -/
theorem c5_finish_selects_last_matching
    (b : Builder) (cid : String) (c : Chain)
    (hcur : b.chain = some cid)
    (hc : alookup b.chains cid = some c) :
    ∃ c', alookup (finish_chain_construction b).chains cid = some c' ∧
      ∀ k g, alookup c.residues k = some (.group g) →
        alookup c'.residues k = some (.group
          { g with selected :=
              (match g.children.reverse.find? (fun q => decide (q.2.id = g.id)) with
               | some q => some q.1
               | none => g.selected) }) ∧
        ((g.children.reverse.find? (fun q => decide (q.2.id = g.id))).isSome = true →
          ∀ sel₀ : Option String,
            reset_disordered_res { g with selected := sel₀ } =
              reset_disordered_res g) := by
  refine ⟨{ c with residues := c.residues.map (fun p => (p.1, reset_res_child p.2)) },
    ?_, ?_⟩
  · simp only [finish_chain_construction, hcur, hc]
    exact alookup_aset_self _ _ _
  · intro k g hg
    constructor
    · rw [alookup_map_snd reset_res_child c.residues k, hg]
      simp only [Option.map_some']
      simp only [reset_res_child, reset_disordered_res]
      rw [foldl_select_eq_reverse_find]
    · intro hfind sel₀
      simp only [reset_disordered_res]
      congr 1
      rw [foldl_select_eq_reverse_find, foldl_select_eq_reverse_find]
      cases hf : g.children.reverse.find? (fun q => decide (q.2.id = g.id)) with
      | some q => rfl
      | none =>
          rw [hf] at hfind
          exact absurd hfind (by simp)

/-- Witness for C5: a chain holding one point-mutation group with "ALA"
selected; end_chain reselects per the group's children. -/
theorem c5_finish_selects_last_matching_witness :
    ((⟨[("A", ⟨"A", [((" ", 1, " "), .group ⟨(" ", 1, " "),
          [("ALA", ⟨(" ", 1, " "), "ALA", "", [], false⟩),
           ("SER", ⟨(" ", 1, " "), "SER", "", [], false⟩)],
          some "ALA"⟩)]⟩)],
        some "A", none, "", []⟩ : Builder).chain = some "A") ∧
    (∃ c', alookup (finish_chain_construction
        (⟨[("A", ⟨"A", [((" ", 1, " "), .group ⟨(" ", 1, " "),
            [("ALA", ⟨(" ", 1, " "), "ALA", "", [], false⟩),
             ("SER", ⟨(" ", 1, " "), "SER", "", [], false⟩)],
            some "ALA"⟩)]⟩)],
          some "A", none, "", []⟩ : Builder)).chains "A" = some c' ∧
      ∀ k g, alookup (⟨"A", [((" ", 1, " "), .group ⟨(" ", 1, " "),
            [("ALA", ⟨(" ", 1, " "), "ALA", "", [], false⟩),
             ("SER", ⟨(" ", 1, " "), "SER", "", [], false⟩)],
            some "ALA"⟩)]⟩ : Chain).residues k = some (.group g) →
        alookup c'.residues k = some (.group
          { g with selected :=
              (match g.children.reverse.find? (fun q => decide (q.2.id = g.id)) with
               | some q => some q.1
               | none => g.selected) }) ∧
        ((g.children.reverse.find? (fun q => decide (q.2.id = g.id))).isSome = true →
          ∀ sel₀ : Option String,
            reset_disordered_res { g with selected := sel₀ } =
              reset_disordered_res g)) :=
  ⟨rfl,
    c5_finish_selects_last_matching
      ⟨[("A", ⟨"A", [((" ", 1, " "), .group ⟨(" ", 1, " "),
          [("ALA", ⟨(" ", 1, " "), "ALA", "", [], false⟩),
           ("SER", ⟨(" ", 1, " "), "SER", "", [], false⟩)],
          some "ALA"⟩)]⟩)],
        some "A", none, "", []⟩ "A" _ rfl rfl⟩

/-- Atom admission events for a run of records sharing one atom name and
full spelling; each record is (altloc, occupancy, serial number). -/
def atom_events (name fullname : String) (recs : List (String × Int × Nat)) :
    List Event :=
  recs.map (fun x => Event.add_atom name fullname x.1 x.2.1 x.2.2)

/-- Group child built from one record. -/
def mkAtomEntry (name fullname : String) (x : String × Int × Nat) : String × Atom :=
  (x.1, ⟨name, fullname, x.1, x.2.1, x.2.2⟩)

/-- Intermediate state shape while a run of disordered records for one key
is admitted: the cursor reaches a plain residue whose atom collection is
exactly one group under the key, and the group's selected child exists and
carries the common full spelling. -/
def C7Inv (cid : String) (rkey : ResId) (name fullname : String)
    (g : DisorderedAtom) (b : Builder) : Prop :=
  b.residue = some (cid, rkey) ∧
  ∃ c r, alookup b.chains cid = some c ∧
    alookup c.residues rkey = some (.plain r) ∧
    r.atoms = [(name, .group g)] ∧
    ∃ s a, g.selected = some s ∧ alookup g.children s = some a ∧
      a.fullname = fullname

theorem c7_step {cid : String} {rkey : ResId} {name fullname : String}
    {g : DisorderedAtom} {b : Builder}
    (hinv : C7Inv cid rkey name fullname g b)
    {al : String} (hal : al ≠ " ") (hfresh : al ∉ g.children.map Prod.fst)
    (oc : Int) (sn : Nat) :
    ∃ b', init_atom b name fullname al oc sn = .ok (b', none) ∧
      C7Inv cid rkey name fullname
        (disordered_add_atom g ⟨name, fullname, al, oc, sn⟩) b' ∧
      (disordered_add_atom g ⟨name, fullname, al, oc, sn⟩).children =
        g.children ++ [(al, ⟨name, fullname, al, oc, sn⟩)] := by
  obtain ⟨hres, c, r, hc, hrc, hatoms, s, a, hs, ha, haf⟩ := hinv
  have hlook : alookup r.atoms name = some (.group g) := by
    rw [hatoms]; simp [alookup]
  have hgf : acGetFullname (.group g) = some fullname := by
    simp [acGetFullname, hs, ha, haf]
  have hnotne : ¬ (fullname ≠ fullname) := fun h => h rfl
  have hchildren : (disordered_add_atom g ⟨name, fullname, al, oc, sn⟩).children =
      g.children ++ [(al, ⟨name, fullname, al, oc, sn⟩)] := by
    have hset : aset g.children al (⟨name, fullname, al, oc, sn⟩ : Atom) =
        g.children ++ [(al, ⟨name, fullname, al, oc, sn⟩)] := aset_eq_append hfresh _
    simp only [disordered_add_atom]
    cases g.last_occupancy with
    | none => simpa using hset
    | some l =>
        by_cases hlt : l < oc
        · simp only [if_pos hlt]; simpa using hset
        · simp only [if_neg hlt]; simpa using hset
  have hsel : (disordered_add_atom g ⟨name, fullname, al, oc, sn⟩).selected =
      some al ∨
      (disordered_add_atom g ⟨name, fullname, al, oc, sn⟩).selected = g.selected := by
    simp only [disordered_add_atom]
    cases g.last_occupancy with
    | none => left; rfl
    | some l =>
        by_cases hlt : l < oc
        · left; simp [if_pos hlt]
        · right; simp [if_neg hlt]
  refine ⟨writeback b cid c rkey (.plain r)
      { r with atoms := aset r.atoms name (.group (disordered_add_atom g
          ⟨name, fullname, al, oc, sn⟩)) } [], ?_, ?_, hchildren⟩
  · simp only [init_atom, hres, hc, hrc, rcActive, hlook, hgf, if_neg hnotne,
      atom_admission, if_pos hal]
  · refine ⟨hres, { c with residues := aset c.residues rkey (.plain
        { r with atoms := aset r.atoms name (.group (disordered_add_atom g
            ⟨name, fullname, al, oc, sn⟩)) }) },
      { r with atoms := aset r.atoms name (.group (disordered_add_atom g
          ⟨name, fullname, al, oc, sn⟩)) },
      alookup_aset_self _ _ _, alookup_aset_self _ _ _, ?_, ?_⟩
    · rw [hatoms]
      simp [aset]
    · rcases hsel with h1 | h1
      · refine ⟨al, ⟨name, fullname, al, oc, sn⟩, h1, ?_, rfl⟩
        rw [hchildren, alookup_append_right _ (alookup_eq_none.mpr hfresh)]
        simp [alookup]
      · refine ⟨s, a, h1.trans hs, ?_, haf⟩
        rw [hchildren]
        exact alookup_append_left _ ha

theorem c7_loop (cid : String) (rkey : ResId) (name fullname : String) :
    ∀ (recs : List (String × Int × Nat)) (g : DisorderedAtom) (b : Builder),
      C7Inv cid rkey name fullname g b →
      (∀ x ∈ recs, x.1 ≠ " ") →
      (g.children.map Prod.fst ++ recs.map Prod.fst).Nodup →
      ∃ b' g', run_events b (atom_events name fullname recs) = .ok b' ∧
        C7Inv cid rkey name fullname g' b' ∧
        g'.children = g.children ++ recs.map (mkAtomEntry name fullname) := by
  intro recs
  induction recs with
  | nil =>
      intro g b hinv _ _
      exact ⟨b, g, rfl, hinv, by simp [atom_events]⟩
  | cons x rest ih =>
      intro g b hinv hnb hnd
      have hal : x.1 ≠ " " := hnb x (List.mem_cons_self _ _)
      have hfresh : x.1 ∉ g.children.map Prod.fst := by
        intro hmem
        exact List.disjoint_of_nodup_append hnd hmem (by simp)
      obtain ⟨b1, hstep, hinv1, hch⟩ := c7_step hinv hal hfresh x.2.1 x.2.2
      have hnd1 : ((disordered_add_atom g
            ⟨name, fullname, x.1, x.2.1, x.2.2⟩).children.map Prod.fst ++
            rest.map Prod.fst).Nodup := by
        rw [hch, List.map_append]
        simp only [List.map_cons, List.map_nil]
        rw [List.append_assoc, List.singleton_append]
        simpa using hnd
      obtain ⟨b', g', hrun, hinv', hch'⟩ :=
        ih (disordered_add_atom g ⟨name, fullname, x.1, x.2.1, x.2.2⟩) b1 hinv1
          (fun y hy => hnb y (List.mem_cons_of_mem _ hy)) hnd1
      refine ⟨b', g', ?_, hinv', ?_⟩
      · simp only [atom_events, List.map_cons, run_events, process_event, hstep]
        simpa [atom_events] using hrun
      · rw [hch', hch, List.append_assoc]
        simp [mkAtomEntry]

/-- C7: N ≥ 2 records arriving at one fresh residue sharing atom name and
full spelling but carrying pairwise distinct non-blank altlocs all end up,
in file order, as the children of the single Disordered Atom Group stored
under that key — no atom record is lost. -/
theorem c7_no_atom_loss (recs : List (String × Int × Nat))
    (name fullname : String) (b : Builder) (cid : String) (rkey : ResId)
    (c : Chain) (r : Residue)
    (hN : 2 ≤ recs.length)
    (hnd : (recs.map Prod.fst).Nodup)
    (hnb : ∀ x ∈ recs, x.1 ≠ " ")
    (hres : b.residue = some (cid, rkey))
    (hc : alookup b.chains cid = some c)
    (hrc : alookup c.residues rkey = some (.plain r))
    (hempty : r.atoms = []) :
    ∃ b' c' r' g,
      run_events b (atom_events name fullname recs) = .ok b' ∧
      alookup b'.chains cid = some c' ∧
      alookup c'.residues rkey = some (.plain r') ∧
      r'.atoms = [(name, .group g)] ∧
      g.children = recs.map (mkAtomEntry name fullname) ∧
      ∀ x ∈ recs,
        (x.1, (⟨name, fullname, x.1, x.2.1, x.2.2⟩ : Atom)) ∈ g.children := by
  cases recs with
  | nil => exact absurd hN (by simp)
  | cons x rest =>
  have hal : x.1 ≠ " " := hnb x (List.mem_cons_self _ _)
  have hnone : alookup r.atoms name = none := by rw [hempty]; rfl
  have hstep1 : init_atom b name fullname x.1 x.2.1 x.2.2 =
      .ok (writeback b cid c rkey (.plain r)
        { r with
            atoms := r.atoms ++ [(name, .group (disordered_add_atom
              ⟨name, [], none, none⟩ ⟨name, fullname, x.1, x.2.1, x.2.2⟩))],
            disordered_flag := true } [], none) := by
    simp only [init_atom, hres, hc, hrc, rcActive, hnone, atom_admission,
      if_pos hal]
  have hg1c : (disordered_add_atom ⟨name, [], none, none⟩
      ⟨name, fullname, x.1, x.2.1, x.2.2⟩).children =
      [(x.1, ⟨name, fullname, x.1, x.2.1, x.2.2⟩)] := by
    simp [disordered_add_atom, aset]
  have hinv1 : C7Inv cid rkey name fullname
      (disordered_add_atom ⟨name, [], none, none⟩
        ⟨name, fullname, x.1, x.2.1, x.2.2⟩)
      (writeback b cid c rkey (.plain r)
        { r with
            atoms := r.atoms ++ [(name, .group (disordered_add_atom
              ⟨name, [], none, none⟩ ⟨name, fullname, x.1, x.2.1, x.2.2⟩))],
            disordered_flag := true } []) := by
    refine ⟨hres, { c with residues := aset c.residues rkey (.plain
        { r with
            atoms := r.atoms ++ [(name, .group (disordered_add_atom
              ⟨name, [], none, none⟩ ⟨name, fullname, x.1, x.2.1, x.2.2⟩))],
            disordered_flag := true }) },
      { r with
          atoms := r.atoms ++ [(name, .group (disordered_add_atom
            ⟨name, [], none, none⟩ ⟨name, fullname, x.1, x.2.1, x.2.2⟩))],
          disordered_flag := true },
      alookup_aset_self _ _ _, alookup_aset_self _ _ _, ?_, ?_⟩
    · rw [hempty]
      simp
    · refine ⟨x.1, ⟨name, fullname, x.1, x.2.1, x.2.2⟩, ?_, ?_, rfl⟩
      · simp [disordered_add_atom]
      · rw [hg1c]
        simp [alookup]
  have hnd1 : ((disordered_add_atom ⟨name, [], none, none⟩
        ⟨name, fullname, x.1, x.2.1, x.2.2⟩).children.map Prod.fst ++
        rest.map Prod.fst).Nodup := by
    rw [hg1c]
    simpa using hnd
  obtain ⟨b', g', hrun, hinv', hch'⟩ :=
    c7_loop cid rkey name fullname rest
      (disordered_add_atom ⟨name, [], none, none⟩
        ⟨name, fullname, x.1, x.2.1, x.2.2⟩)
      (writeback b cid c rkey (.plain r)
        { r with
            atoms := r.atoms ++ [(name, .group (disordered_add_atom
              ⟨name, [], none, none⟩ ⟨name, fullname, x.1, x.2.1, x.2.2⟩))],
            disordered_flag := true } [])
      hinv1 (fun y hy => hnb y (List.mem_cons_of_mem _ hy)) hnd1
  obtain ⟨hres', c', r', hc', hrc', hatoms', _⟩ := hinv'
  have hchfinal : g'.children = (x :: rest).map (mkAtomEntry name fullname) := by
    rw [hch', hg1c]
    simp [mkAtomEntry]
  refine ⟨b', c', r', g', ?_, hc', hrc', hatoms', hchfinal, ?_⟩
  · simp only [atom_events, List.map_cons, run_events, process_event, hstep1]
    simpa [atom_events] using hrun
  · intro y hy
    rw [hchfinal]
    exact List.mem_map.mpr ⟨y, hy, rfl⟩

/-- Witness for C7: two records, altlocs "A" and "B", into a fresh "ALA"
residue. -/
theorem c7_no_atom_loss_witness :
    (2 ≤ ([("A", 10, 1), ("B", 9, 2)] :
        List (String × Int × Nat)).length ∧
      (([("A", 10, 1), ("B", 9, 2)] :
        List (String × Int × Nat)).map Prod.fst).Nodup ∧
      ∀ x ∈ ([("A", 10, 1), ("B", 9, 2)] : List (String × Int × Nat)),
        x.1 ≠ " ") ∧
    (∃ b' c' r' g,
      run_events
        (⟨[("A", ⟨"A", [((" ", 1, " "),
            .plain ⟨(" ", 1, " "), "ALA", "", [], false⟩)]⟩)],
          some "A", some ("A", (" ", 1, " ")), "", []⟩ : Builder)
        (atom_events "CA" " CA " [("A", 10, 1), ("B", 9, 2)]) = .ok b' ∧
      alookup b'.chains "A" = some c' ∧
      alookup c'.residues (" ", 1, " ") = some (.plain r') ∧
      r'.atoms = [("CA", .group g)] ∧
      g.children = ([("A", 10, 1), ("B", 9, 2)] :
        List (String × Int × Nat)).map (mkAtomEntry "CA" " CA ") ∧
      ∀ x ∈ ([("A", 10, 1), ("B", 9, 2)] : List (String × Int × Nat)),
        (x.1, (⟨"CA", " CA ", x.1, x.2.1, x.2.2⟩ : Atom)) ∈ g.children) :=
  ⟨⟨by decide, by decide, by decide⟩,
    c7_no_atom_loss [("A", 10, 1), ("B", 9, 2)] "CA" " CA "
      ⟨[("A", ⟨"A", [((" ", 1, " "),
          .plain ⟨(" ", 1, " "), "ALA", "", [], false⟩)]⟩)],
        some "A", some ("A", (" ", 1, " ")), "", []⟩ "A" (" ", 1, " ") _ _
      (by decide) (by decide) (by decide) rfl rfl rfl rfl⟩

end Crimm
